import Mathlib

/-!
Shallow embedding of `data_prototype/containers.py` and verification of the
specification's claims about its data containers.

Modelling conventions:
* numpy float64 arrays are modelled as lists of rationals (all the arithmetic
  the claims touch is exact in float64 for the concrete inputs used);
* Python dicts keyed by strings are association lists with first-match lookup,
  built by dict-style assignment (`dictSet`, a later assignment overrides an
  earlier one) or merged by `dict.update` semantics (`dictUpdate`);
* `uuid.uuid4()` is modelled as a fresh-name supply: the container carries a
  counter `next_key`, and every generated key is distinct from all earlier ones;
* Python `hash` on a tuple of query parameters is modelled injectively by the
  tuple itself;
* `cachetools.LFUCache` is modelled by a bounded list of
  (key, value, use-count) entries with least-use-count-first eviction.
-/

/-- Optional scale hint (`xscale` / `yscale`), a Python `str | None`. -/
abbrev ScaleHint := Option String

/-- A returned data mapping: named numpy arrays, modelled as rational lists. -/
abbrev Values := List (String × List ℚ)

/-- First-defined option, Python dict-lookup fallback order. -/
def optOr {α : Type} (a b : Option α) : Option α :=
  match a with
  | some v => some v
  | none => b

/-- First-match association-list lookup, Python `d[k]` / `d.get(k)`. -/
def assocLookup {α : Type} (d : List (String × α)) (k : String) : Option α :=
  match d with
  | [] => none
  | kv :: rest => if kv.1 = k then some kv.2 else assocLookup rest k

/-- Python `d[k] = v`: replace the value of an existing key in place,
otherwise append the new key at the end. -/
def dictSet {α : Type} (d : List (String × α)) (k : String) (v : α) :
    List (String × α) :=
  if (assocLookup d k).isSome then
    d.map (fun kv => if kv.1 = k then (k, v) else kv)
  else d ++ [(k, v)]

/-- Python `d.update(u)`: values of keys already in `d` are replaced, keys of
`u` not present in `d` are appended in order. -/
def dictUpdate {α : Type} (d u : List (String × α)) : List (String × α) :=
  d.map (fun kv =>
    match assocLookup u kv.1 with
    | some v => (kv.1, v)
    | none => kv)
  ++ u.filter (fun kv => (assocLookup d kv.1).isNone)

theorem assocLookup_append {α : Type} (a b : List (String × α)) (k : String) :
    assocLookup (a ++ b) k = optOr (assocLookup a k) (assocLookup b k) := by
  induction a with
  | nil => simp [assocLookup, optOr]
  | cons kv rest ih =>
      by_cases h : kv.1 = k
      · simp [assocLookup, h, optOr]
      · simp [assocLookup, h, ih]

theorem assocLookup_eq_none_iff {α : Type} (d : List (String × α)) (k : String) :
    assocLookup d k = none ↔ ¬ k ∈ d.map Prod.fst := by
  induction d with
  | nil => simp [assocLookup]
  | cons kv rest ih =>
      by_cases h : kv.1 = k
      · simp [assocLookup, h]
      · simp only [assocLookup, if_neg h, List.map_cons, List.mem_cons, ih]
        constructor
        · intro hn hor
          rcases hor with he | hm
          · exact h he.symm
          · exact hn hm
        · intro hn hm
          exact hn (Or.inr hm)

theorem assocLookup_map_replace {α : Type} (d u : List (String × α)) (k : String) :
    assocLookup (d.map (fun kv =>
        match assocLookup u kv.1 with
        | some v => (kv.1, v)
        | none => kv)) k =
      (assocLookup d k).bind (fun w => optOr (assocLookup u k) (some w)) := by
  induction d with
  | nil => simp [assocLookup]
  | cons kv rest ih =>
      by_cases h : kv.1 = k
      · subst h
        cases hu : assocLookup u kv.1 <;>
          simp [assocLookup, hu, optOr]
      · cases hu : assocLookup u kv.1 <;>
          simp [assocLookup, h, hu, ih]

theorem assocLookup_filter_notin {α : Type} (d u : List (String × α)) (k : String)
    (hk : assocLookup d k = none) :
    assocLookup (u.filter (fun kv => (assocLookup d kv.1).isNone)) k =
      assocLookup u k := by
  induction u with
  | nil => rfl
  | cons kv rest ih =>
      by_cases h : kv.1 = k
      · subst h
        simp [List.filter_cons, assocLookup, hk]
      · cases hd : (assocLookup d kv.1).isNone <;>
          simp [List.filter_cons, assocLookup, h, hd, ih]

theorem dictUpdate_lookup {α : Type} (d u : List (String × α)) (k : String) :
    assocLookup (dictUpdate d u) k =
      optOr (assocLookup u k) (assocLookup d k) := by
  unfold dictUpdate
  rw [assocLookup_append, assocLookup_map_replace]
  cases hd : assocLookup d k with
  | some w => cases hu : assocLookup u k <;> simp [optOr, hu]
  | none =>
      rw [assocLookup_filter_notin d u k hd]
      cases hu : assocLookup u k <;> simp [optOr, hu]

/-- The `Desc` dataclass: symbolic shape (fixed sizes and/or named symbolic
dimensions), dtype string and a unit tag defaulting to `"naive"`. -/
structure Desc where
  shape : List (String ⊕ ℕ)
  dtype_str : String
  units : String := "naive"
deriving DecidableEq

/-- `ArrayContainer`: a fixed mapping of names to arrays, a cache key drawn
from the uuid supply (`cache_key < next_key` for every reachable container),
and descriptors derived from the arrays at construction. -/
structure ArrayContainer where
  data : List (String × List ℚ)
  desc : List (String × Desc)
  cache_key : ℕ
  next_key : ℕ
deriving DecidableEq

/-- `ArrayContainer.__init__`: store the data, draw a fresh cache key from the
uuid supply, and derive each descriptor from the array's actual shape. -/
def ArrayContainer.init (data : List (String × List ℚ)) : ArrayContainer :=
  { data := data
    desc := data.map (fun kv =>
      (kv.1, { shape := [Sum.inr kv.2.length], dtype_str := "float64" }))
    cache_key := 0
    next_key := 1 }

/-- `ArrayContainer.query`: a pure pass-through of the stored data and the
stored cache key; every query parameter is ignored. -/
def ArrayContainer.query (c : ArrayContainer)
    (data_bounds : ℚ × ℚ × ℚ × ℚ) (size : ℕ × ℕ)
    (xscale yscale : ScaleHint) : Values × ℕ :=
  (c.data, c.cache_key)

/-- `ArrayContainer.describe`: the descriptors computed at construction. -/
def ArrayContainer.describe (c : ArrayContainer) : List (String × Desc) :=
  c.desc

/-- `ArrayContainer.update`: if any supplied name is not already stored, raise
`Exception("Can not add keys")` before touching anything; otherwise replace
the values and draw a fresh cache key.  The first component is the container
state after the call, the second the normal/raised outcome. -/
def ArrayContainer.update (c : ArrayContainer) (data : List (String × List ℚ)) :
    ArrayContainer × Except String Unit :=
  if data.all (fun kv => (assocLookup c.data kv.1).isSome) then
    ({ c with data := dictUpdate c.data data
              cache_key := c.next_key
              next_key := c.next_key + 1 }, Except.ok ())
  else (c, Except.error "Can not add keys")

/-- Claim C4: `ArrayContainer.update` with a mapping containing at least one
name absent from the stored data — equivalently, given key-agreement between
the stored data and the construction-time descriptors, absent from
`describe()`'s key set — fails with the "Can not add keys" error instead of
adding the key. -/
theorem arrayContainer_update_unknown_name_fails
    (c : ArrayContainer) (upd : List (String × List ℚ))
    (hdesc : c.desc.map Prod.fst = c.data.map Prod.fst)
    (h : ∃ kv ∈ upd, assocLookup (ArrayContainer.describe c) kv.1 = none) :
    (c.update upd).2 = Except.error "Can not add keys" := by
  obtain ⟨kv, hmem, hnone⟩ := h
  have hdata : assocLookup c.data kv.1 = none := by
    rw [assocLookup_eq_none_iff] at hnone ⊢
    rw [← hdesc]
    exact hnone
  have hall : ¬ (upd.all (fun kv => (assocLookup c.data kv.1).isSome)) = true := by
    intro hall
    have := List.all_eq_true.mp hall kv hmem
    rw [hdata] at this
    simp at this
  unfold ArrayContainer.update
  rw [if_neg hall]

/-- Witness for C4 at a concrete container and update mapping. -/
theorem arrayContainer_update_unknown_name_fails_witness :
    ((ArrayContainer.init [("x", [1, 2])]).update [("z", [3])]).2 =
      Except.error "Can not add keys" :=
  arrayContainer_update_unknown_name_fails
    (ArrayContainer.init [("x", [1, 2])]) [("z", [3])]
    (by decide)
    ⟨("z", [3]), by decide, by decide⟩

/-- Claim C5: two queries with no intervening update return the same values and
the same cache key; a successful update whose names are all already present
replaces exactly the supplied values and regenerates the cache key, so a query
after the update returns a different key than one before it. -/
theorem arrayContainer_update_regenerates_key
    (c : ArrayContainer) (upd : List (String × List ℚ))
    (db1 db2 : ℚ × ℚ × ℚ × ℚ) (s1 s2 : ℕ × ℕ) (x1 x2 y1 y2 : ScaleHint)
    (hwf : c.cache_key < c.next_key)
    (hknown : ∀ kv ∈ upd, (assocLookup c.data kv.1).isSome = true) :
    (c.query db1 s1 x1 y1 = c.query db2 s2 x2 y2) ∧
    (c.update upd).2 = Except.ok () ∧
    (∀ k, assocLookup (c.update upd).1.data k =
        optOr (assocLookup upd k) (assocLookup c.data k)) ∧
    ((c.update upd).1.query db1 s1 x1 y1).2 ≠ (c.query db1 s1 x1 y1).2 := by
  have hall : (upd.all (fun kv => (assocLookup c.data kv.1).isSome)) = true :=
    List.all_eq_true.mpr hknown
  have hupdate : c.update upd =
      ({ c with data := dictUpdate c.data upd
                cache_key := c.next_key
                next_key := c.next_key + 1 }, Except.ok ()) := by
    unfold ArrayContainer.update
    rw [if_pos hall]
  have hdata : (c.update upd).1.data = dictUpdate c.data upd := by rw [hupdate]
  have hkey : (c.update upd).1.cache_key = c.next_key := by rw [hupdate]
  refine ⟨rfl, ?_, ?_, ?_⟩
  · rw [hupdate]
  · intro k
    rw [hdata]
    exact dictUpdate_lookup c.data upd k
  · show (c.update upd).1.cache_key ≠ c.cache_key
    rw [hkey]
    exact (Nat.ne_of_lt hwf).symm

/-- Witness for C5 at a concrete container, update and query parameters. -/
theorem arrayContainer_update_regenerates_key_witness :
    ((ArrayContainer.init [("x", [1, 2])]).query (0, 1, 0, 1) (2, 2) none none =
      (ArrayContainer.init [("x", [1, 2])]).query (5, 6, 7, 8) (9, 9) none none) ∧
    ((ArrayContainer.init [("x", [1, 2])]).update [("x", [3, 4])]).2 = Except.ok () ∧
    assocLookup ((ArrayContainer.init [("x", [1, 2])]).update [("x", [3, 4])]).1.data "x" =
      some [3, 4] ∧
    (((ArrayContainer.init [("x", [1, 2])]).update [("x", [3, 4])]).1.query
        (0, 1, 0, 1) (2, 2) none none).2 ≠
      ((ArrayContainer.init [("x", [1, 2])]).query (0, 1, 0, 1) (2, 2) none none).2 := by
  have h := arrayContainer_update_regenerates_key
    (ArrayContainer.init [("x", [1, 2])]) [("x", [3, 4])]
    (0, 1, 0, 1) (5, 6, 7, 8) (2, 2) (9, 9) none none none none
    (by decide) (by decide)
  refine ⟨h.1, h.2.1, ?_, h.2.2.2⟩
  have h3 := h.2.2.1 "x"
  rw [h3]
  decide

/-- Claim C9: a failing `ArrayContainer.update` is atomic — the membership
check for all supplied names precedes any mutation, so on failure the stored
data and the cache key are unchanged and a later query returns exactly what a
query before the failed update returned. -/
theorem arrayContainer_update_failure_atomic
    (c : ArrayContainer) (upd : List (String × List ℚ))
    (db : ℚ × ℚ × ℚ × ℚ) (s : ℕ × ℕ) (xh yh : ScaleHint)
    (h : ∃ kv ∈ upd, assocLookup c.data kv.1 = none) :
    (c.update upd).1 = c ∧
    (c.update upd).2 = Except.error "Can not add keys" ∧
    (c.update upd).1.query db s xh yh = c.query db s xh yh := by
  obtain ⟨kv, hmem, hnone⟩ := h
  have hall : ¬ (upd.all (fun kv => (assocLookup c.data kv.1).isSome)) = true := by
    intro hall
    have := List.all_eq_true.mp hall kv hmem
    rw [hnone] at this
    simp at this
  have hupdate : c.update upd = (c, Except.error "Can not add keys") := by
    unfold ArrayContainer.update
    rw [if_neg hall]
  exact ⟨by rw [hupdate], by rw [hupdate], by rw [hupdate]⟩

/-- Witness for C9 at a concrete container: the failed update leaves the
container (and hence the next query's result) untouched. -/
theorem arrayContainer_update_failure_atomic_witness :
    ((ArrayContainer.init [("x", [1, 2])]).update [("x", [9]), ("z", [3])]).1 =
      ArrayContainer.init [("x", [1, 2])] ∧
    ((ArrayContainer.init [("x", [1, 2])]).update [("x", [9]), ("z", [3])]).2 =
      Except.error "Can not add keys" ∧
    ((ArrayContainer.init [("x", [1, 2])]).update [("x", [9]), ("z", [3])]).1.query
        (0, 1, 0, 1) (2, 2) none none =
      (ArrayContainer.init [("x", [1, 2])]).query (0, 1, 0, 1) (2, 2) none none :=
  arrayContainer_update_failure_atomic
    (ArrayContainer.init [("x", [1, 2])]) [("x", [9]), ("z", [3])]
    (0, 1, 0, 1) (2, 2) none none
    ⟨("z", [3]), by decide, by decide⟩

/-- `np.clip(x, lo, hi)`, numpy order: `minimum(hi, maximum(x, lo))`. -/
def np_clip (x lo hi : ℚ) : ℚ := min hi (max x lo)

/-- `np.linspace(a, b, num)`: `num` evenly spaced samples from `a` to `b`
inclusive (exact rational arithmetic). -/
def np_linspace (a b : ℚ) (num : ℕ) : List ℚ :=
  if num = 1 then [a]
  else (List.range num).map (fun (i : ℕ) => a + (b - a) * (i : ℚ) / ((num : ℚ) - 1))

theorem np_linspace_length (a b : ℚ) (num : ℕ) :
    (np_linspace a b num).length = num := by
  unfold np_linspace
  by_cases h : num = 1
  · rw [if_pos h, h]
    rfl
  · rw [if_neg h, List.length_map, List.length_range]

/-- `ndarray.min()`; the empty array (which raises in numpy) is sent to 0. -/
def dataMin : List ℚ → ℚ
  | [] => 0
  | x :: xs => xs.foldl min x

/-- `ndarray.max()`; the empty array (which raises in numpy) is sent to 0. -/
def dataMax : List ℚ → ℚ
  | [] => 0
  | x :: xs => xs.foldl max x

/-- Consecutive pairs of bin edges. -/
def binIntervals : List ℚ → List (ℚ × ℚ)
  | a :: b :: rest => (a, b) :: binIntervals (b :: rest)
  | _ => []

theorem binIntervals_length (l : List ℚ) :
    (binIntervals l).length = l.length - 1 := by
  induction l with
  | nil => rfl
  | cons a rest ih =>
      cases rest with
      | nil => rfl
      | cons b r2 =>
          simp only [binIntervals, List.length_cons] at ih ⊢
          omega

/-- `np.histogram` bin counts: every bin is half-open except the last one,
which is closed. -/
def histCounts (data : List ℚ) : List (ℚ × ℚ) → List ℕ
  | [] => []
  | [p] => [(data.filter (fun x => decide (p.1 ≤ x) && decide (x ≤ p.2))).length]
  | p :: rest =>
      (data.filter (fun x => decide (p.1 ≤ x) && decide (x < p.2))).length ::
        histCounts data rest

theorem histCounts_length (data : List ℚ) (ps : List (ℚ × ℚ)) :
    (histCounts data ps).length = ps.length := by
  induction ps with
  | nil => rfl
  | cons p rest ih =>
      cases rest with
      | nil => rfl
      | cons q r2 =>
          simp only [histCounts, List.length_cons] at ih ⊢
          omega

/-- `np.histogram(data, bins=edges, density=True)`: returns `(density, edges)`
with the given bin array echoed back as the edges and the counts normalized so
that the total area is 1. -/
def np_histogram (data bins : List ℚ) : List ℚ × List ℚ :=
  let ivs := binIntervals bins
  let counts := histCounts data ivs
  let total : ℚ := (counts.map (fun (n : ℕ) => (n : ℚ))).sum
  ((ivs.zip counts).map (fun pc => (pc.2 : ℚ) / (total * (pc.1.2 - pc.1.1))),
   bins)

theorem np_histogram_edges (data bins : List ℚ) :
    (np_histogram data bins).2 = bins := rfl

theorem np_histogram_density_length (data bins : List ℚ) :
    (np_histogram data bins).1.length = bins.length - 1 := by
  simp [np_histogram, List.length_zip, histCounts_length, binIntervals_length]

/-- `HistContainer`: raw one-dimensional samples and a target bin count. -/
structure HistContainer where
  raw_data : List ℚ
  num_bins : ℕ

/-- The global data range `(raw_data.min(), raw_data.max())` precomputed in
`HistContainer.__init__`. -/
def HistContainer.full_range (c : HistContainer) : ℚ × ℚ :=
  (dataMin c.raw_data, dataMax c.raw_data)

/-- `HistContainer.describe`: fixed declared shapes `[num_bins + 1 + 2]` for
the edges and `[num_bins + 2]` for the density. -/
def HistContainer.describe (c : HistContainer) : List (String × Desc) :=
  [("edges", { shape := [Sum.inr (c.num_bins + 1 + 2)], dtype_str := "float64" }),
   ("density", { shape := [Sum.inr (c.num_bins + 2)], dtype_str := "float64" })]

/-- `HistContainer.query`: clamp the requested x-window to the global range,
key the result by the clamped pair, build the bin edges (an edge at the global
minimum when `dmin < xmin`, a `num_bins`-point linspace over the clamped
window, an edge at the global maximum when `xmax < dmax`) and histogram the
raw data over them with `density=True`. -/
def HistContainer.query (c : HistContainer)
    (data_bounds : ℚ × ℚ × ℚ × ℚ) (size : ℕ × ℕ)
    (xscale yscale : ScaleHint) : Values × (ℚ × ℚ) :=
  let dmin := (c.full_range).1
  let dmax := (c.full_range).2
  let xmin := np_clip data_bounds.1 dmin dmax
  let xmax := np_clip data_bounds.2.1 dmin dmax
  let edges_in :=
    (if dmin < xmin then [dmin] else []) ++
    np_linspace xmin xmax c.num_bins ++
    (if xmax < dmax then [dmax] else [])
  let dh := np_histogram c.raw_data edges_in
  ([("edges", dh.2), ("density", dh.1)], (xmin, xmax))

/-- The edges array a query returns (lengths and contents do not depend on the
pixel size or the scale hints). -/
def HistContainer.edgesOut (c : HistContainer)
    (data_bounds : ℚ × ℚ × ℚ × ℚ) : List ℚ :=
  (assocLookup (c.query data_bounds (0, 0) none none).1 "edges").getD []

/-- The density array a query returns. -/
def HistContainer.densityOut (c : HistContainer)
    (data_bounds : ℚ × ℚ × ℚ × ℚ) : List ℚ :=
  (assocLookup (c.query data_bounds (0, 0) none none).1 "density").getD []

theorem hist_query_edges_expr (c : HistContainer)
    (xmin xmax ymin ymax : ℚ) (sz : ℕ × ℕ) (xh yh : ScaleHint) :
    (assocLookup (c.query (xmin, xmax, ymin, ymax) sz xh yh).1 "edges").getD [] =
      (if (c.full_range).1 < np_clip xmin (c.full_range).1 (c.full_range).2
       then [(c.full_range).1] else []) ++
      np_linspace (np_clip xmin (c.full_range).1 (c.full_range).2)
        (np_clip xmax (c.full_range).1 (c.full_range).2) c.num_bins ++
      (if np_clip xmax (c.full_range).1 (c.full_range).2 < (c.full_range).2
       then [(c.full_range).2] else []) := by
  simp [HistContainer.query, assocLookup, np_histogram_edges]

theorem hist_query_density_len (c : HistContainer)
    (db : ℚ × ℚ × ℚ × ℚ) (sz : ℕ × ℕ) (xh yh : ScaleHint) :
    ((assocLookup (c.query db sz xh yh).1 "density").getD []).length =
      ((assocLookup (c.query db sz xh yh).1 "edges").getD []).length - 1 := by
  simp [HistContainer.query, assocLookup, np_histogram_edges,
    np_histogram_density_length]

theorem hist_query_edges_len (c : HistContainer)
    (xmin xmax ymin ymax : ℚ) (sz : ℕ × ℕ) (xh yh : ScaleHint) :
    ((assocLookup (c.query (xmin, xmax, ymin, ymax) sz xh yh).1 "edges").getD []).length =
      (if (c.full_range).1 < np_clip xmin (c.full_range).1 (c.full_range).2
       then 1 else 0) +
      c.num_bins +
      (if np_clip xmax (c.full_range).1 (c.full_range).2 < (c.full_range).2
       then 1 else 0) := by
  rw [hist_query_edges_expr]
  by_cases h1 : (c.full_range).1 < np_clip xmin (c.full_range).1 (c.full_range).2 <;>
    by_cases h2 : np_clip xmax (c.full_range).1 (c.full_range).2 < (c.full_range).2 <;>
      simp [h1, h2, np_linspace_length] <;> omega

theorem np_clip_eq_self (x lo hi : ℚ) (h1 : lo ≤ x) (h2 : x ≤ hi) :
    np_clip x lo hi = x := by
  unfold np_clip
  rw [max_eq_left h1, min_eq_right h2]

theorem np_clip_lower_lt (x lo hi : ℚ) :
    lo < np_clip x lo hi ↔ lo < hi ∧ lo < x := by
  unfold np_clip
  rw [lt_min_iff, lt_max_iff]
  constructor
  · rintro ⟨hh, hx⟩
    exact ⟨hh, hx.resolve_right (lt_irrefl lo)⟩
  · rintro ⟨hh, hx⟩
    exact ⟨hh, Or.inl hx⟩

theorem np_clip_upper_lt (x lo hi : ℚ) :
    np_clip x lo hi < hi ↔ x < hi ∧ lo < hi := by
  unfold np_clip
  rw [min_lt_iff, max_lt_iff]
  constructor
  · rintro (hh | hm)
    · exact absurd hh (lt_irrefl hi)
    · exact hm
  · intro h
    exact Or.inr h

/-- Claim C1 fails as stated: for the window `(2, 8)`, strictly inside the
global data range `(0, 10)` of a 4-bin container, the returned edges array has
6 entries, not `num_bins + 1 = 5`. -/
theorem hist_edges_length_counterexample :
    dataMin (HistContainer.mk [0, 10] 4).raw_data < 2 ∧
    (2 : ℚ) ≤ 8 ∧
    (8 : ℚ) < dataMax (HistContainer.mk [0, 10] 4).raw_data ∧
    (HistContainer.edgesOut ⟨[0, 10], 4⟩ (2, 8, 0, 1)).length ≠
      (HistContainer.mk [0, 10] 4).num_bins + 1 := by decide

/-- Claim C1 (amended): for a query window strictly inside the global data
range the edges array has `num_bins + 2` entries — the `num_bins`-point linear
split of the clamped window plus one overflow edge at each end — and the
density array is exactly one entry shorter. -/
theorem histContainer_interior_window_lengths
    (c : HistContainer) (xmin xmax ymin ymax : ℚ) (sz : ℕ × ℕ) (xh yh : ScaleHint)
    (h1 : dataMin c.raw_data < xmin) (h2 : xmin ≤ xmax)
    (h3 : xmax < dataMax c.raw_data) :
    ((assocLookup (c.query (xmin, xmax, ymin, ymax) sz xh yh).1 "edges").getD []).length
        = c.num_bins + 2 ∧
    ((assocLookup (c.query (xmin, xmax, ymin, ymax) sz xh yh).1 "density").getD []).length
        = c.num_bins + 1 := by
  have hc1 : np_clip xmin (c.full_range).1 (c.full_range).2 = xmin :=
    np_clip_eq_self _ _ _ h1.le (h2.trans h3.le)
  have hc2 : np_clip xmax (c.full_range).1 (c.full_range).2 = xmax :=
    np_clip_eq_self _ _ _ ((h1.trans_le h2).le) h3.le
  have he := hist_query_edges_len c xmin xmax ymin ymax sz xh yh
  rw [hc1, hc2, if_pos (show (c.full_range).1 < xmin from h1),
      if_pos (show xmax < (c.full_range).2 from h3)] at he
  have hd := hist_query_density_len c (xmin, xmax, ymin, ymax) sz xh yh
  rw [he] at hd
  exact ⟨by omega, by omega⟩

/-- Witness for the amended C1 at the window `(2, 8)` inside `(0, 10)`. -/
theorem histContainer_interior_window_lengths_witness :
    ((assocLookup ((HistContainer.mk [0, 10] 4).query (2, 8, 0, 1) (5, 5)
        none none).1 "edges").getD []).length = 6 ∧
    ((assocLookup ((HistContainer.mk [0, 10] 4).query (2, 8, 0, 1) (5, 5)
        none none).1 "density").getD []).length = 5 :=
  histContainer_interior_window_lengths ⟨[0, 10], 4⟩ 2 8 0 1 (5, 5) none none
    (by decide) (by decide) (by decide)

/-- Following the spec's words for claim C2, for comparison with the source:
the returned edges decompose as an extra leading edge at the global minimum
present exactly when the requested window extends below the global minimum, a
nonempty linear split of the clamped window, and an extra trailing edge at the
global maximum present exactly when the window extends above the global
maximum. -/
def histClaimedEdgeLayout (c : HistContainer) (xmin xmax ymin ymax : ℚ) : Prop :=
  ∃ core : List ℚ,
    core ≠ [] ∧
    core.head? = some (np_clip xmin (c.full_range).1 (c.full_range).2) ∧
    core.getLast? = some (np_clip xmax (c.full_range).1 (c.full_range).2) ∧
    c.edgesOut (xmin, xmax, ymin, ymax) =
      (if xmin < (c.full_range).1 then [(c.full_range).1] else []) ++ core ++
      (if (c.full_range).2 < xmax then [(c.full_range).2] else [])

/-- Claim C2 fails as stated: for the window `(-5, 15)`, which extends below
and above the global range `(0, 10)`, the code adds no extra edges at all
(the returned edges are exactly the two-point split `[0, 10]`), so the claimed
layout with its extra leading and trailing edges is impossible. -/
theorem hist_overflow_edge_direction_counterexample :
    ¬ histClaimedEdgeLayout ⟨[0, 10], 2⟩ (-5) 15 0 1 := by
  rintro ⟨core, hne, hh, hl, he⟩
  rw [if_pos (show (-5 : ℚ) < ((HistContainer.mk [0, 10] 2).full_range).1 by decide),
      if_pos (show ((HistContainer.mk [0, 10] 2).full_range).2 < (15 : ℚ) by decide)]
    at he
  have hlen := congrArg List.length he
  have hL : (HistContainer.edgesOut ⟨[0, 10], 2⟩ (-5, 15, 0, 1)).length = 2 := by
    decide
  rw [hL] at hlen
  simp only [List.length_append, List.length_cons, List.length_nil] at hlen
  exact hne (List.length_eq_zero.mp (by omega))

/-- Claim C2 (amended): the extra leading edge at the global minimum is present
exactly when the requested window starts strictly above the global minimum
(with a nondegenerate data range), and the extra trailing edge at the global
maximum is present exactly when the window ends strictly below the global
maximum — the reverse of the claimed directions. -/
theorem histContainer_overflow_edge_conditions
    (c : HistContainer) (xmin xmax ymin ymax : ℚ) (sz : ℕ × ℕ) (xh yh : ScaleHint) :
    (assocLookup (c.query (xmin, xmax, ymin, ymax) sz xh yh).1 "edges").getD [] =
      (if (c.full_range).1 < (c.full_range).2 ∧ (c.full_range).1 < xmin
       then [(c.full_range).1] else []) ++
      np_linspace (np_clip xmin (c.full_range).1 (c.full_range).2)
        (np_clip xmax (c.full_range).1 (c.full_range).2) c.num_bins ++
      (if xmax < (c.full_range).2 ∧ (c.full_range).1 < (c.full_range).2
       then [(c.full_range).2] else []) := by
  rw [hist_query_edges_expr,
      if_congr (np_clip_lower_lt xmin (c.full_range).1 (c.full_range).2) rfl rfl,
      if_congr (np_clip_upper_lt xmax (c.full_range).1 (c.full_range).2) rfl rfl]

/-- Claim C3: two queries whose x-windows clamp to the same pair against the
precomputed global range return the same cache key and the same values
mapping, whatever the pixel sizes, y-bounds and scale hints are. -/
theorem histContainer_query_noninterference
    (c : HistContainer) (db1 db2 : ℚ × ℚ × ℚ × ℚ) (s1 s2 : ℕ × ℕ)
    (x1 x2 y1 y2 : ScaleHint)
    (hmin : np_clip db1.1 (c.full_range).1 (c.full_range).2 =
            np_clip db2.1 (c.full_range).1 (c.full_range).2)
    (hmax : np_clip db1.2.1 (c.full_range).1 (c.full_range).2 =
            np_clip db2.2.1 (c.full_range).1 (c.full_range).2) :
    c.query db1 s1 x1 y1 = c.query db2 s2 x2 y2 := by
  simp only [HistContainer.query]
  rw [hmin, hmax]

/-- Witness for C3: the windows `(-3, 12)` and `(-7, 99)` both clamp to
`(0, 10)`, so two queries differing in every other parameter agree. -/
theorem histContainer_query_noninterference_witness :
    HistContainer.query ⟨[0, 10], 3⟩ (-3, 12, 0, 1) (100, 50) none none =
      HistContainer.query ⟨[0, 10], 3⟩ (-7, 99, 5, 6) (3, 9) (some "log") none :=
  histContainer_query_noninterference ⟨[0, 10], 3⟩ (-3, 12, 0, 1) (-7, 99, 5, 6)
    (100, 50) (3, 9) none (some "log") none none (by decide) (by decide)

/-- Claim C10 fails as stated: for the window `(2, 8)` inside `(0, 10)` both
overflow edges are present (both clip conditions hold, and the edges begin at
the global minimum 0 and end at the global maximum 10), yet the lengths are
6 and 5, not the declared `num_bins + 3 = 7` and `num_bins + 2 = 6`. -/
theorem hist_describe_shape_counterexample :
    ((HistContainer.mk [0, 10] 4).full_range).1 <
      np_clip 2 ((HistContainer.mk [0, 10] 4).full_range).1
        ((HistContainer.mk [0, 10] 4).full_range).2 ∧
    np_clip 8 ((HistContainer.mk [0, 10] 4).full_range).1
        ((HistContainer.mk [0, 10] 4).full_range).2 <
      ((HistContainer.mk [0, 10] 4).full_range).2 ∧
    (HistContainer.edgesOut ⟨[0, 10], 4⟩ (2, 8, 0, 1)).headD 99 = 0 ∧
    (HistContainer.edgesOut ⟨[0, 10], 4⟩ (2, 8, 0, 1)).getLastD 99 = 10 ∧
    (HistContainer.edgesOut ⟨[0, 10], 4⟩ (2, 8, 0, 1)).length = 6 ∧
    (HistContainer.edgesOut ⟨[0, 10], 4⟩ (2, 8, 0, 1)).length ≠ 4 + 1 + 2 ∧
    (HistContainer.densityOut ⟨[0, 10], 4⟩ (2, 8, 0, 1)).length = 5 ∧
    (HistContainer.densityOut ⟨[0, 10], 4⟩ (2, 8, 0, 1)).length ≠ 4 + 2 := by
  decide

/-- Claim C10 (amended): the edges array has `num_bins` entries plus one per
overflow edge and the density array is exactly one entry shorter, while
`describe` declares the fixed shapes `[num_bins + 1 + 2]` and `[num_bins + 2]`;
the returned lengths never reach the declared ones — even with both overflow
edges present they fall one short. -/
theorem histContainer_lengths_never_match_describe
    (c : HistContainer) (xmin xmax ymin ymax : ℚ) (sz : ℕ × ℕ) (xh yh : ScaleHint) :
    ((assocLookup (c.query (xmin, xmax, ymin, ymax) sz xh yh).1 "edges").getD []).length =
      (if (c.full_range).1 < np_clip xmin (c.full_range).1 (c.full_range).2
       then 1 else 0) +
      c.num_bins +
      (if np_clip xmax (c.full_range).1 (c.full_range).2 < (c.full_range).2
       then 1 else 0) ∧
    ((assocLookup (c.query (xmin, xmax, ymin, ymax) sz xh yh).1 "density").getD []).length =
      ((assocLookup (c.query (xmin, xmax, ymin, ymax) sz xh yh).1 "edges").getD []).length - 1 ∧
    assocLookup c.describe "edges" =
      some { shape := [Sum.inr (c.num_bins + 1 + 2)], dtype_str := "float64" } ∧
    assocLookup c.describe "density" =
      some { shape := [Sum.inr (c.num_bins + 2)], dtype_str := "float64" } ∧
    ((assocLookup (c.query (xmin, xmax, ymin, ymax) sz xh yh).1 "edges").getD []).length ≠
      c.num_bins + 1 + 2 ∧
    ((assocLookup (c.query (xmin, xmax, ymin, ymax) sz xh yh).1 "density").getD []).length ≠
      c.num_bins + 2 := by
  have he := hist_query_edges_len c xmin xmax ymin ymax sz xh yh
  have hd := hist_query_density_len c (xmin, xmax, ymin, ymax) sz xh yh
  refine ⟨he, hd, ?_, ?_, ?_, ?_⟩
  · simp [HistContainer.describe, assocLookup]
  · simp [HistContainer.describe, assocLookup]
  · rw [he]
    by_cases h1 : (c.full_range).1 < np_clip xmin (c.full_range).1 (c.full_range).2 <;>
      by_cases h2 : np_clip xmax (c.full_range).1 (c.full_range).2 < (c.full_range).2 <;>
        simp [h1, h2] <;> omega
  · rw [hd, he]
    by_cases h1 : (c.full_range).1 < np_clip xmin (c.full_range).1 (c.full_range).2 <;>
      by_cases h2 : np_clip xmax (c.full_range).1 (c.full_range).2 < (c.full_range).2 <;>
        simp [h1, h2] <;> omega

/-- `cachetools.LFUCache`: a bounded mapping whose entries carry a use count. -/
structure LFUCache (κ ν : Type) where
  maxsize : ℕ
  entries : List (κ × ν × ℕ)

/-- Cache lookup (`key in cache` / `cache[key]` read). -/
def lfuLookup {κ ν : Type} [DecidableEq κ] (cache : LFUCache κ ν) (k : κ) :
    Option ν :=
  (cache.entries.find? (fun e => decide (e.1 = k))).map (fun e => e.2.1)

/-- A cache hit increments the key's use count. -/
def lfuBump {κ ν : Type} [DecidableEq κ] (cache : LFUCache κ ν) (k : κ) :
    LFUCache κ ν :=
  { cache with
    entries := cache.entries.map (fun e =>
      if e.1 = k then (e.1, e.2.1, e.2.2 + 1) else e) }

/-- Least use count among the entries (0 for an empty cache). -/
def countsMin {κ ν : Type} : List (κ × ν × ℕ) → ℕ
  | [] => 0
  | e :: es => (es.map (fun e2 => e2.2.2)).foldr min e.2.2

/-- Remove the first entry carrying the given use count. -/
def dropFirstWithCount {κ ν : Type} (m : ℕ) :
    List (κ × ν × ℕ) → List (κ × ν × ℕ)
  | [] => []
  | e :: es => if e.2.2 = m then es else e :: dropFirstWithCount m es

/-- `LFUCache.popitem`: evict a least-frequently-used entry. -/
def evictMinEntries {κ ν : Type} (es : List (κ × ν × ℕ)) : List (κ × ν × ℕ) :=
  dropFirstWithCount (countsMin es) es

/-- Evict while the insertion would overflow the capacity (the while loop of
`Cache.__setitem__`, fuel-bounded). -/
def lfuEvictLoop {κ ν : Type} : ℕ → ℕ → List (κ × ν × ℕ) → List (κ × ν × ℕ)
  | 0, _, es => es
  | fuel + 1, maxsize, es =>
      if maxsize ≤ es.length then lfuEvictLoop fuel maxsize (evictMinEntries es)
      else es

/-- `cache[key] = value`: replace in place for a known key; for a fresh key
evict down to capacity, then append the new entry with use count 0. -/
def lfuInsert {κ ν : Type} [DecidableEq κ] (cache : LFUCache κ ν) (k : κ) (v : ν) :
    LFUCache κ ν :=
  if cache.entries.any (fun e => decide (e.1 = k)) then
    { cache with
      entries := cache.entries.map (fun e =>
        if e.1 = k then (k, v, e.2.2) else e) }
  else
    { cache with
      entries :=
        lfuEvictLoop (cache.entries.length + 1) cache.maxsize cache.entries ++
          [(k, v, 0)] }

theorem foldr_min_le_init (l : List ℕ) (i : ℕ) : l.foldr min i ≤ i := by
  induction l with
  | nil => exact le_refl i
  | cons a l ih => exact le_trans (min_le_right a (l.foldr min i)) ih

theorem foldr_min_le_mem (l : List ℕ) (i x : ℕ) (hx : x ∈ l) :
    l.foldr min i ≤ x := by
  induction l with
  | nil => cases hx
  | cons a l ih =>
      rcases List.mem_cons.mp hx with h | h
      · rw [h]
        exact min_le_left a (l.foldr min i)
      · exact le_trans (min_le_right a (l.foldr min i)) (ih h)

theorem foldr_min_mem (l : List ℕ) (i : ℕ) :
    l.foldr min i = i ∨ l.foldr min i ∈ l := by
  induction l with
  | nil => exact Or.inl rfl
  | cons a l ih =>
      rcases min_choice a (l.foldr min i) with h | h
      · exact Or.inr (by rw [List.foldr_cons, h]; exact List.mem_cons_self a l)
      · rcases ih with h2 | h2
        · exact Or.inl (by rw [List.foldr_cons, h, h2])
        · exact Or.inr (by rw [List.foldr_cons, h]; exact List.mem_cons_of_mem a h2)

theorem countsMin_le {κ ν : Type} (es : List (κ × ν × ℕ)) (e : κ × ν × ℕ)
    (he : e ∈ es) : countsMin es ≤ e.2.2 := by
  cases es with
  | nil => cases he
  | cons e0 rest =>
      rcases List.mem_cons.mp he with h | h
      · rw [h] at *
        exact foldr_min_le_init _ _
      · exact foldr_min_le_mem _ _ _ (List.mem_map_of_mem (fun e2 => e2.2.2) h)

theorem countsMin_attained {κ ν : Type} (es : List (κ × ν × ℕ)) (hne : es ≠ []) :
    ∃ e ∈ es, e.2.2 = countsMin es := by
  cases es with
  | nil => exact absurd rfl hne
  | cons e0 rest =>
      rcases foldr_min_mem (rest.map (fun e2 => e2.2.2)) e0.2.2 with h | h
      · exact ⟨e0, List.mem_cons_self e0 rest, h.symm⟩
      · obtain ⟨e, hmem, heq⟩ := List.mem_map.mp h
        exact ⟨e, List.mem_cons_of_mem e0 hmem, heq⟩

theorem dropFirstWithCount_eraseIdx {κ ν : Type} (m : ℕ)
    (es : List (κ × ν × ℕ)) (h : ∃ e ∈ es, e.2.2 = m) :
    ∃ i : Fin es.length, (es.get i).2.2 = m ∧
      dropFirstWithCount m es = es.eraseIdx i := by
  induction es with
  | nil => obtain ⟨e, he, _⟩ := h; cases he
  | cons e0 rest ih =>
      by_cases h0 : e0.2.2 = m
      · refine ⟨⟨0, by simp⟩, h0, ?_⟩
        simp [dropFirstWithCount, h0, List.eraseIdx]
      · obtain ⟨e, he, heq⟩ := h
        rcases List.mem_cons.mp he with h1 | h1
        · exact absurd (h1 ▸ heq) h0
        · obtain ⟨i, hi1, hi2⟩ := ih ⟨e, h1, heq⟩
          refine ⟨⟨i.1 + 1,
            by simp only [List.length_cons]; exact Nat.succ_lt_succ i.isLt⟩, hi1, ?_⟩
          simp [dropFirstWithCount, h0, List.eraseIdx, hi2]

theorem evictMinEntries_spec {κ ν : Type} (es : List (κ × ν × ℕ)) (hne : es ≠ []) :
    ∃ i : Fin es.length, (∀ e ∈ es, (es.get i).2.2 ≤ e.2.2) ∧
      evictMinEntries es = es.eraseIdx i := by
  obtain ⟨i, hi1, hi2⟩ :=
    dropFirstWithCount_eraseIdx (countsMin es) es (countsMin_attained es hne)
  exact ⟨i, fun e he => hi1 ▸ countsMin_le es e he, hi2⟩

theorem evictMinEntries_length {κ ν : Type} (es : List (κ × ν × ℕ))
    (hne : es ≠ []) : (evictMinEntries es).length = es.length - 1 := by
  obtain ⟨i, _, heq⟩ := evictMinEntries_spec es hne
  rw [heq]
  have := List.length_eraseIdx_add_one i.isLt
  omega

theorem lfuEvictLoop_length_lt {κ ν : Type} (fuel maxsize : ℕ)
    (es : List (κ × ν × ℕ)) (hmax : 0 < maxsize) (hfuel : es.length ≤ fuel) :
    (lfuEvictLoop fuel maxsize es).length < maxsize := by
  induction fuel generalizing es with
  | zero =>
      have : es.length = 0 := Nat.le_zero.mp hfuel
      unfold lfuEvictLoop
      omega
  | succ fuel ih =>
      unfold lfuEvictLoop
      by_cases h : maxsize ≤ es.length
      · rw [if_pos h]
        have hne : es ≠ [] := by
          intro hnil
          rw [hnil] at h
          have h0 : maxsize ≤ 0 := h
          omega
        have hlen := evictMinEntries_length es hne
        exact ih (evictMinEntries es) (by omega)
      · rw [if_neg h]
        omega

theorem lfuInsert_length_le {κ ν : Type} [DecidableEq κ]
    (cache : LFUCache κ ν) (k : κ) (v : ν) (hmax : 0 < cache.maxsize)
    (hlen : cache.entries.length ≤ cache.maxsize) :
    (lfuInsert cache k v).entries.length ≤ cache.maxsize := by
  unfold lfuInsert
  by_cases h : cache.entries.any (fun e => decide (e.1 = k))
  · rw [if_pos h]
    simp only [List.length_map]
    exact hlen
  · rw [if_neg h]
    have := lfuEvictLoop_length_lt (cache.entries.length + 1) cache.maxsize
      cache.entries hmax (by omega)
    simp only [List.length_append, List.length_cons, List.length_nil]
    omega

theorem lfuEvictLoop_at_capacity {κ ν : Type} (fuel maxsize : ℕ)
    (es : List (κ × ν × ℕ)) (hmax : 0 < maxsize) (hlen : es.length = maxsize) :
    lfuEvictLoop (fuel + 2) maxsize es = evictMinEntries es := by
  have hne : es ≠ [] := by
    intro hnil
    rw [hnil] at hlen
    have h0 : (0 : ℕ) = maxsize := hlen
    omega
  unfold lfuEvictLoop
  rw [if_pos (le_of_eq hlen.symm)]
  unfold lfuEvictLoop
  rw [if_neg (by rw [evictMinEntries_length es hne]; omega)]

/-- `FuncContainer`: three groups of pure functions, driven by the x samples,
the y samples, or both. -/
structure FuncContainer where
  xfuncs : List (String × (List ℚ → List ℚ))
  yfuncs : List (String × (List ℚ → List ℚ))
  xyfuncs : List (String × (List ℚ → List ℚ → List ℚ))

/-- The hashed query-parameter tuple
`(data_bounds, size, xscale, yscale)`, modelled injectively by itself. -/
abbrev FuncQueryKey := (ℚ × ℚ × ℚ × ℚ) × (ℕ × ℕ) × ScaleHint × ScaleHint

/-- The cache-miss computation of `FuncContainer.query`: sample the window at
twice the pixel counts and evaluate every function. -/
def FuncContainer.compute (c : FuncContainer)
    (data_bounds : ℚ × ℚ × ℚ × ℚ) (size : ℕ × ℕ) : Values :=
  let x_data := np_linspace data_bounds.1 data_bounds.2.1 (size.1 * 2)
  let y_data := np_linspace data_bounds.2.2.1 data_bounds.2.2.2 (size.2 * 2)
  c.xfuncs.map (fun kf => (kf.1, kf.2 x_data)) ++
  c.yfuncs.map (fun kf => (kf.1, kf.2 y_data)) ++
  c.xyfuncs.map (fun kf => (kf.1, kf.2 x_data y_data))

/-- `FuncContainer.query`: if the parameter tuple is in the LFU cache return
the cached mapping (counting the access); otherwise compute, cache and return
the fresh mapping. -/
def FuncContainer.query (c : FuncContainer) (cache : LFUCache FuncQueryKey Values)
    (data_bounds : ℚ × ℚ × ℚ × ℚ) (size : ℕ × ℕ)
    (xscale yscale : ScaleHint) :
    (Values × FuncQueryKey) × LFUCache FuncQueryKey Values :=
  let hash_key : FuncQueryKey := (data_bounds, size, xscale, yscale)
  if (lfuLookup cache hash_key).isSome then
    (((lfuLookup cache hash_key).getD [], hash_key), lfuBump cache hash_key)
  else
    let ret := c.compute data_bounds size
    ((ret, hash_key), lfuInsert cache hash_key ret)

/-- The cache built in `FuncContainer.__init__`: `LFUCache(64)`. -/
def FuncContainer.initCache : LFUCache FuncQueryKey Values := ⟨64, []⟩

/-- Run a sequence of queries, threading the cache through. -/
def FuncContainer.runQueries (c : FuncContainer)
    (cache : LFUCache FuncQueryKey Values) :
    List FuncQueryKey → LFUCache FuncQueryKey Values
  | [] => cache
  | a :: rest =>
      FuncContainer.runQueries c (c.query cache a.1 a.2.1 a.2.2.1 a.2.2.2).2 rest

theorem lfuBump_maxsize {κ ν : Type} [DecidableEq κ] (cache : LFUCache κ ν)
    (k : κ) : (lfuBump cache k).maxsize = cache.maxsize := rfl

theorem lfuBump_length {κ ν : Type} [DecidableEq κ] (cache : LFUCache κ ν)
    (k : κ) : (lfuBump cache k).entries.length = cache.entries.length := by
  simp [lfuBump]

theorem lfuInsert_maxsize {κ ν : Type} [DecidableEq κ] (cache : LFUCache κ ν)
    (k : κ) (v : ν) : (lfuInsert cache k v).maxsize = cache.maxsize := by
  unfold lfuInsert
  split <;> rfl

theorem funcQuery_cache_step (c : FuncContainer)
    (cache : LFUCache FuncQueryKey Values) (a : FuncQueryKey)
    (h1 : cache.maxsize = 64) (h2 : cache.entries.length ≤ 64) :
    (c.query cache a.1 a.2.1 a.2.2.1 a.2.2.2).2.maxsize = 64 ∧
    (c.query cache a.1 a.2.1 a.2.2.1 a.2.2.2).2.entries.length ≤ 64 := by
  refine ⟨?_, ?_⟩ <;> simp only [FuncContainer.query] <;> split
  · rw [lfuBump_maxsize]
    exact h1
  · rw [lfuInsert_maxsize]
    exact h1
  · rw [lfuBump_length]
    exact h2
  · have := lfuInsert_length_le cache (a.1, a.2.1, a.2.2.1, a.2.2.2)
      (c.compute (a.1, a.2.1, a.2.2.1, a.2.2.2).1 (a.1, a.2.1, a.2.2.1, a.2.2.2).2.1)
      (by omega) (by omega)
    rw [h1] at this
    exact this

theorem funcRunQueries_cache_bounded (c : FuncContainer)
    (cache : LFUCache FuncQueryKey Values) (args : List FuncQueryKey)
    (h1 : cache.maxsize = 64) (h2 : cache.entries.length ≤ 64) :
    (FuncContainer.runQueries c cache args).maxsize = 64 ∧
    (FuncContainer.runQueries c cache args).entries.length ≤ 64 := by
  induction args generalizing cache with
  | nil => exact ⟨h1, h2⟩
  | cons a rest ih =>
      obtain ⟨s1, s2⟩ := funcQuery_cache_step c cache a h1 h2
      exact ih _ s1 s2

theorem lfuInsert_fresh_at_capacity {κ ν : Type} [DecidableEq κ]
    (cache : LFUCache κ ν) (k : κ) (v : ν)
    (hmax : 0 < cache.maxsize) (hlen : cache.entries.length = cache.maxsize)
    (hfresh : cache.entries.any (fun e => decide (e.1 = k)) = false) :
    (lfuInsert cache k v).entries = evictMinEntries cache.entries ++ [(k, v, 0)] := by
  unfold lfuInsert
  simp only [hfresh, Bool.false_eq_true, if_false]
  rw [show cache.entries.length + 1 = (cache.maxsize - 1) + 2 by omega,
      lfuEvictLoop_at_capacity (cache.maxsize - 1) cache.maxsize cache.entries
        hmax hlen]

/-- Claim C6: starting from the cache configured in the constructor, any
sequence of `FuncContainer.query` calls leaves at most 64 cached entries; and
inserting a fresh key into a cache at its capacity first evicts an entry whose
use count is least among all cached entries. -/
theorem funcContainer_cache_capacity_lfu :
    (∀ (c : FuncContainer) (args : List FuncQueryKey),
       (FuncContainer.runQueries c FuncContainer.initCache args).entries.length ≤ 64) ∧
    (∀ (cache : LFUCache FuncQueryKey Values) (k : FuncQueryKey) (v : Values),
       cache.maxsize = 64 → cache.entries.length = 64 →
       cache.entries.any (fun e => decide (e.1 = k)) = false →
       ∃ i : Fin cache.entries.length,
         (∀ e ∈ cache.entries, (cache.entries.get i).2.2 ≤ e.2.2) ∧
         (lfuInsert cache k v).entries =
           cache.entries.eraseIdx i ++ [(k, v, 0)]) := by
  constructor
  · intro c args
    exact (funcRunQueries_cache_bounded c FuncContainer.initCache args rfl
      (by simp [FuncContainer.initCache])).2
  · intro cache k v hmax hlen hfresh
    have hne : cache.entries ≠ [] := by
      intro hnil
      rw [hnil] at hlen
      have h0 : (0 : ℕ) = 64 := hlen
      omega
    obtain ⟨i, hmin, heq⟩ := evictMinEntries_spec cache.entries hne
    refine ⟨i, hmin, ?_⟩
    rw [lfuInsert_fresh_at_capacity cache k v (by omega) (by omega) hfresh, heq]

/-- Witness for C6: a two-query run stays within the capacity bound, and
inserting a fresh key into a concrete full (capacity-2 scaled down to the
generic lemma is not possible here, so a genuine 64-entry cache is used)
cache evicts the least-used entry. -/
def funcContainerEx : FuncContainer :=
  ⟨[("squares", fun xs => xs.map (fun x => x * x))], [], []⟩

/-- A concrete cache at the full capacity 64: the entry whose size field is
`(n, 0)` carries use count `n + 1`, so the first entry is the least used. -/
def fullCacheEx : LFUCache FuncQueryKey Values :=
  ⟨64, (List.range 64).map
    (fun (n : ℕ) =>
      ((((0 : ℚ), 0, 0, 0), (n, 0), none, none) : FuncQueryKey)
        |> (fun k => (k, ([] : Values), n + 1)))⟩

/-- A key not present in `fullCacheEx`. -/
def freshKeyEx : FuncQueryKey := ((0, 0, 0, 0), (64, 64), none, none)

/-- Witness for C6: a concrete two-query run stays within the bound, and
inserting a fresh key into the concrete full cache evicts a least-used entry. -/
theorem funcContainer_cache_capacity_lfu_witness :
    ((FuncContainer.runQueries funcContainerEx FuncContainer.initCache
        [((0, 1, 0, 1), (2, 2), none, none),
         ((0, 2, 0, 1), (3, 3), none, none)]).entries.length ≤ 64) ∧
    ∃ i : Fin fullCacheEx.entries.length,
      (∀ e ∈ fullCacheEx.entries, (fullCacheEx.entries.get i).2.2 ≤ e.2.2) ∧
      (lfuInsert fullCacheEx freshKeyEx ([] : Values)).entries =
        fullCacheEx.entries.eraseIdx i ++ [(freshKeyEx, [], 0)] :=
  ⟨funcContainer_cache_capacity_lfu.1 funcContainerEx
      [((0, 1, 0, 1), (2, 2), none, none), ((0, 2, 0, 1), (3, 3), none, none)],
   funcContainer_cache_capacity_lfu.2 fullCacheEx freshKeyEx [] rfl
      (by decide) (by decide)⟩

/-- `SeriesContainer`: one pandas Series, modelled as (index, value) rows,
exposed under a chosen index name and column name, with a cache key fixed at
construction. -/
structure SeriesContainer where
  series : List (ℚ × ℚ)
  index_name : String
  col_name : String
  hash_key : ℕ

/-- `SeriesContainer.query`: ignore every parameter and return the full index
and value columns verbatim together with the construction-time cache key. -/
def SeriesContainer.query (s : SeriesContainer)
    (data_bounds : ℚ × ℚ × ℚ × ℚ) (size : ℕ × ℕ)
    (xscale yscale : ScaleHint) : Values × ℕ :=
  (dictSet (dictSet [] s.index_name (s.series.map Prod.fst))
      s.col_name (s.series.map Prod.snd),
   s.hash_key)

/-- `DataFrameContainer`: a pandas DataFrame (named columns and an index),
the column-to-output renaming dict, an optional exposed index name, and a
cache key fixed at construction. -/
structure DataFrameContainer where
  df_cols : List (String × List ℚ)
  df_index : List ℚ
  col_name_dict : List (String × String)
  index_name : Option String
  hash_key : ℕ

/-- One assignment step of the result-building loop of
`DataFrameContainer.query`: `ret[out] = self._data[col].values`. -/
def DataFrameContainer.retStep (d : DataFrameContainer) (acc : Values)
    (co : String × String) : Values :=
  dictSet acc co.2 ((assocLookup d.df_cols co.1).getD [])

/-- `DataFrameContainer.query`: ignore every parameter; return the index
column (when an index name is configured) and every renamed column verbatim,
with the construction-time cache key. -/
def DataFrameContainer.query (d : DataFrameContainer)
    (data_bounds : ℚ × ℚ × ℚ × ℚ) (size : ℕ × ℕ)
    (xscale yscale : ScaleHint) : Values × ℕ :=
  let ret0 : Values :=
    match d.index_name with
    | some n => [(n, d.df_index)]
    | none => []
  (d.col_name_dict.foldl d.retStep ret0, d.hash_key)

theorem assocLookup_isSome_map_replace {α : Type} (d : List (String × α))
    (k : String) (v : α) (h : (assocLookup d k).isSome = true) :
    assocLookup (d.map (fun kv => if kv.1 = k then (k, v) else kv)) k = some v := by
  induction d with
  | nil => simp [assocLookup] at h
  | cons kv rest ih =>
      by_cases hk : kv.1 = k
      · simp [assocLookup, hk]
      · rw [assocLookup, if_neg hk] at h
        simp only [List.map_cons, if_neg hk]
        rw [assocLookup, if_neg hk]
        exact ih h

theorem dictSet_lookup_self {α : Type} (d : List (String × α)) (k : String)
    (v : α) : assocLookup (dictSet d k v) k = some v := by
  unfold dictSet
  by_cases h : (assocLookup d k).isSome = true
  · rw [if_pos h]
    exact assocLookup_isSome_map_replace d k v h
  · rw [if_neg h]
    rw [assocLookup_append]
    have hd : assocLookup d k = none := by
      cases hx : assocLookup d k with
      | none => rfl
      | some w => rw [hx] at h; simp at h
    rw [hd]
    simp [assocLookup, optOr]

theorem assocLookup_map_replace_other {α : Type} (d : List (String × α))
    (k k2 : String) (v : α) (h : k2 ≠ k) :
    assocLookup (d.map (fun kv => if kv.1 = k then (k, v) else kv)) k2 =
      assocLookup d k2 := by
  induction d with
  | nil => rfl
  | cons kv rest ih =>
      by_cases hk : kv.1 = k
      · simp only [List.map_cons, if_pos hk]
        rw [assocLookup, assocLookup, if_neg (fun hh => h hh.symm),
          if_neg (fun hh : kv.1 = k2 => h (hh.symm.trans hk))]
        exact ih
      · simp only [List.map_cons, if_neg hk]
        rw [assocLookup, assocLookup]
        by_cases hq : kv.1 = k2
        · rw [if_pos hq, if_pos hq]
        · rw [if_neg hq, if_neg hq]
          exact ih

theorem dictSet_lookup_other {α : Type} (d : List (String × α)) (k k2 : String)
    (v : α) (h : k2 ≠ k) : assocLookup (dictSet d k v) k2 = assocLookup d k2 := by
  unfold dictSet
  by_cases hs : (assocLookup d k).isSome = true
  · rw [if_pos hs]
    exact assocLookup_map_replace_other d k k2 v h
  · rw [if_neg hs]
    rw [assocLookup_append]
    cases hx : assocLookup d k2 with
    | some w => simp [optOr]
    | none => simp [optOr, assocLookup, if_neg (fun hh : k = k2 => h hh.symm)]

theorem dfFold_preserve (d : DataFrameContainer) (l : List (String × String))
    (acc : Values) (k : String) (h : ∀ co ∈ l, co.2 ≠ k) :
    assocLookup (l.foldl d.retStep acc) k = assocLookup acc k := by
  induction l generalizing acc with
  | nil => rfl
  | cons co rest ih =>
      rw [List.foldl_cons,
        ih (d.retStep acc co) (fun co2 hm => h co2 (List.mem_cons_of_mem co hm))]
      exact dictSet_lookup_other acc co.2 k _
        (fun he => (h co (List.mem_cons_self co rest)) he.symm)

theorem dfFold_set (d : DataFrameContainer) (l : List (String × String))
    (acc : Values) (col out : String)
    (hmem : (col, out) ∈ l) (hnodup : (l.map Prod.snd).Nodup) :
    assocLookup (l.foldl d.retStep acc) out =
      some ((assocLookup d.df_cols col).getD []) := by
  induction l generalizing acc with
  | nil => cases hmem
  | cons co rest ih =>
      rw [List.foldl_cons]
      rw [List.map_cons] at hnodup
      have hpair := List.nodup_cons.mp hnodup
      by_cases hco : co.2 = out
      · have hout_not : ∀ co2 ∈ rest, co2.2 ≠ out := by
          intro co2 hm he
          exact hpair.1 (by rw [hco, ← he]; exact List.mem_map_of_mem Prod.snd hm)
        rw [dfFold_preserve d rest (d.retStep acc co) out hout_not]
        have hcol : co.1 = col := by
          rcases List.mem_cons.mp hmem with h1 | h1
          · rw [← h1]
          · exact absurd rfl (hout_not (col, out) h1)
        show assocLookup
          (dictSet acc co.2 ((assocLookup d.df_cols co.1).getD [])) out = _
        rw [hco, hcol]
        exact dictSet_lookup_self acc out _
      · have h1 : (col, out) ∈ rest := by
          rcases List.mem_cons.mp hmem with h2 | h2
          · exact absurd (congrArg Prod.snd h2.symm) hco
          · exact h2
        exact ih (d.retStep acc co) h1 hpair.2

/-- Claim C7: `SeriesContainer.query` and `DataFrameContainer.query` ignore
every query parameter, return the construction-time cache key on every call,
and return the stored column(s) — and the stored index, when an index name is
configured — verbatim. -/
theorem series_dataframe_query_verbatim_fixed_key :
    (∀ (s : SeriesContainer) (db1 db2 : ℚ × ℚ × ℚ × ℚ) (s1 s2 : ℕ × ℕ)
        (x1 x2 y1 y2 : ScaleHint),
       s.query db1 s1 x1 y1 = s.query db2 s2 x2 y2) ∧
    (∀ (s : SeriesContainer) (db : ℚ × ℚ × ℚ × ℚ) (sz : ℕ × ℕ)
        (xh yh : ScaleHint),
       (s.query db sz xh yh).2 = s.hash_key ∧
       assocLookup (s.query db sz xh yh).1 s.col_name =
         some (s.series.map Prod.snd) ∧
       (s.index_name ≠ s.col_name →
         assocLookup (s.query db sz xh yh).1 s.index_name =
           some (s.series.map Prod.fst))) ∧
    (∀ (d : DataFrameContainer) (db1 db2 : ℚ × ℚ × ℚ × ℚ) (s1 s2 : ℕ × ℕ)
        (x1 x2 y1 y2 : ScaleHint),
       d.query db1 s1 x1 y1 = d.query db2 s2 x2 y2) ∧
    (∀ (d : DataFrameContainer) (db : ℚ × ℚ × ℚ × ℚ) (sz : ℕ × ℕ)
        (xh yh : ScaleHint),
       (d.query db sz xh yh).2 = d.hash_key) ∧
    (∀ (d : DataFrameContainer) (db : ℚ × ℚ × ℚ × ℚ) (sz : ℕ × ℕ)
        (xh yh : ScaleHint) (col out : String) (colv : List ℚ),
       (col, out) ∈ d.col_name_dict →
       (d.col_name_dict.map Prod.snd).Nodup →
       assocLookup d.df_cols col = some colv →
       assocLookup (d.query db sz xh yh).1 out = some colv) ∧
    (∀ (d : DataFrameContainer) (db : ℚ × ℚ × ℚ × ℚ) (sz : ℕ × ℕ)
        (xh yh : ScaleHint) (n : String),
       d.index_name = some n →
       (∀ co ∈ d.col_name_dict, co.2 ≠ n) →
       assocLookup (d.query db sz xh yh).1 n = some d.df_index) := by
  refine ⟨fun s db1 db2 s1 s2 x1 x2 y1 y2 => rfl, ?_,
    fun d db1 db2 s1 s2 x1 x2 y1 y2 => rfl, fun d db sz xh yh => rfl, ?_, ?_⟩
  · intro s db sz xh yh
    refine ⟨rfl, ?_, ?_⟩
    · exact dictSet_lookup_self _ s.col_name _
    · intro hne
      show assocLookup
        (dictSet (dictSet [] s.index_name (s.series.map Prod.fst))
          s.col_name (s.series.map Prod.snd)) s.index_name = _
      rw [dictSet_lookup_other _ s.col_name s.index_name _ hne]
      exact dictSet_lookup_self _ s.index_name _
  · intro d db sz xh yh col out colv hmem hnodup hcol
    show assocLookup (d.col_name_dict.foldl d.retStep _) out = some colv
    rw [dfFold_set d d.col_name_dict _ col out hmem hnodup, hcol]
    rfl
  · intro d db sz xh yh n hidx hnone
    show assocLookup (d.col_name_dict.foldl d.retStep
      (match d.index_name with
       | some n2 => [(n2, d.df_index)]
       | none => [])) n = some d.df_index
    rw [dfFold_preserve d d.col_name_dict _ n hnone, hidx]
    simp [assocLookup]

/-- Witness for C7 at a concrete series and a concrete data frame. -/
theorem series_dataframe_query_verbatim_fixed_key_witness :
    (SeriesContainer.query ⟨[(1, 4), (2, 5)], "idx", "val", 7⟩
        (0, 1, 0, 1) (2, 2) none none).2 = 7 ∧
    assocLookup (SeriesContainer.query ⟨[(1, 4), (2, 5)], "idx", "val", 7⟩
        (0, 1, 0, 1) (2, 2) none none).1 "val" = some [4, 5] ∧
    assocLookup (SeriesContainer.query ⟨[(1, 4), (2, 5)], "idx", "val", 7⟩
        (0, 1, 0, 1) (2, 2) none none).1 "idx" = some [1, 2] ∧
    assocLookup (DataFrameContainer.query
        ⟨[("a", [1, 2]), ("b", [3, 4])], [7, 8],
          [("a", "xa"), ("b", "yb")], some "idx", 5⟩
        (0, 1, 0, 1) (2, 2) none none).1 "xa" = some [1, 2] ∧
    assocLookup (DataFrameContainer.query
        ⟨[("a", [1, 2]), ("b", [3, 4])], [7, 8],
          [("a", "xa"), ("b", "yb")], some "idx", 5⟩
        (0, 1, 0, 1) (2, 2) none none).1 "idx" = some [7, 8] := by
  have h := series_dataframe_query_verbatim_fixed_key
  have hs := h.2.1 ⟨[(1, 4), (2, 5)], "idx", "val", 7⟩ (0, 1, 0, 1) (2, 2) none none
  refine ⟨hs.1, hs.2.1, hs.2.2 (by decide), ?_, ?_⟩
  · exact h.2.2.2.2.1 ⟨[("a", [1, 2]), ("b", [3, 4])], [7, 8],
      [("a", "xa"), ("b", "yb")], some "idx", 5⟩ (0, 1, 0, 1) (2, 2) none none
      "a" "xa" [1, 2] (by decide) (by decide) (by decide)
  · exact h.2.2.2.2.2 ⟨[("a", [1, 2]), ("b", [3, 4])], [7, 8],
      [("a", "xa"), ("b", "yb")], some "idx", 5⟩ (0, 1, 0, 1) (2, 2) none none
      "idx" rfl (by decide)

/-- The inner helper of `WebServiceContainer.query`: the source builds the
pair `({}, "1")` but has no `return` statement, so the Python function
returns `None`; modelled as `none`. -/
def hit_some_database : Option (Values × String) := none

/-- `WebServiceContainer.query`: unpack `data, etag` from the helper's result;
unpacking `None` raises `TypeError`, modelled as `Except.error`. -/
def WebServiceContainer.query (data_bounds : ℚ × ℚ × ℚ × ℚ) (size : ℕ × ℕ)
    (xscale yscale : ScaleHint) : Except String (Values × String) :=
  match hit_some_database with
  | some de => Except.ok de
  | none => Except.error "TypeError: cannot unpack non-iterable NoneType object"

/-- Claim C8 (code bug): every call to `WebServiceContainer.query` raises the
unpacking `TypeError` — no call returns a `(values, cache_key)` pair at all,
so no call returns a fresh cache key; and even the pair the helper builds
before falling through carries the constant key `"1"`. -/
theorem webServiceContainer_query_always_raises :
    ∀ (db : ℚ × ℚ × ℚ × ℚ) (sz : ℕ × ℕ) (xh yh : ScaleHint),
      WebServiceContainer.query db sz xh yh =
        Except.error "TypeError: cannot unpack non-iterable NoneType object" :=
  fun _ _ _ _ => rfl
